import Mathlib

/-!
Verification of the flatbread percentage-and-totals transform engine.

The definitions below are a shallow embedding of the Python source:
numeric cells are rationals (`ℚ`), nullable cells are `Option ℚ`,
pandas Series become lists, DataFrames become a `Frame` structure of
row labels, column labels and a row-major cell grid, and the pandas
`attrs` side channel becomes an association-list field.  Fallible
operations (label lookup, invalid axis, `KeyError`) return `Option`
or `Except`.
-/

namespace Flatbread

/-- Powers of ten with an integer exponent, used for decimal rounding at
`ndigits` (negative `ndigits` rounds left of the decimal point). -/
def pow10 (d : ℤ) : ℚ :=
  if 0 ≤ d then ((10 : ℚ) ^ d.toNat) else 1 / ((10 : ℚ) ^ (-d).toNat)

/-- Round half to even to an integer: the rounding used by numpy and by
the Python builtin `round`. -/
def roundHalfEven (q : ℚ) : ℤ :=
  let n := ⌊q⌋
  let frac := q - (n : ℚ)
  if frac < 1/2 then n
  else if 1/2 < frac then n + 1
  else if n % 2 = 0 then n else n + 1

/-- Decimal rounding of `Series.round(ndigits)` and builtin `round(x, ndigits)`:
round half to even at `ndigits` decimal places. -/
def roundAt (d : ℤ) (q : ℚ) : ℚ :=
  ((roundHalfEven (q * pow10 d) : ℚ)) / pow10 d

/-- Embedding of `s.fillna(0)`: replace nulls by 0. -/
def fillna0 (s : List (Option ℚ)) : List ℚ := s.map (fun c => c.getD 0)

/-- Sum of a nullable sequence with nulls treated as 0 (pandas `sum`, which
skips NA values). -/
def sumOpt (s : List (Option ℚ)) : ℚ := (fillna0 s).sum

/-- Running cumulative sums starting from accumulator `acc`. -/
def cumsumFrom (acc : ℚ) : List ℚ → List ℚ
  | [] => []
  | x :: xs => (acc + x) :: cumsumFrom (acc + x) xs

/-- Embedding of `Series.cumsum`. -/
def cumsum (l : List ℚ) : List ℚ := cumsumFrom 0 l

/-- Embedding of `Series.shift(1).fillna(0)`: drop the last entry and put 0 in front. -/
def shiftFill0 : List ℚ → List ℚ
  | [] => []
  | l => 0 :: l.dropLast

/-- The rounded running prefix sums `s.fillna(0).cumsum().round(ndigits)`
from `round_apportioned`. -/
def roundedCumsum (nd : ℤ) (s : List (Option ℚ)) : List ℚ :=
  (cumsum (fillna0 s)).map (roundAt nd)

/-- Embedding of `flatbread.transforms.percentages.round_apportioned` on a Series:
if `ndigits < 0` return the input unchanged; otherwise round the cumulative
prefix sums, difference consecutive entries (`cumsum - cumsum.shift(1).fillna(0)`)
and restore nulls at their original positions (`rounded.mask(s.isna())`). -/
def round_apportioned (s : List (Option ℚ)) (nd : ℤ) : List (Option ℚ) :=
  if nd < 0 then s
  else
    List.zipWith (fun orig r => if orig.isSome then some r else none) s
      (List.zipWith (fun a b => a - b) (roundedCumsum nd s)
        (shiftFill0 (roundedCumsum nd s)))

/-- Differences of consecutive entries with `p` as previous baseline
(proof helper equal to the `cumsum - shifted` difference). -/
def diffFrom (p : ℚ) : List ℚ → List ℚ
  | [] => []
  | c :: cs => (c - p) :: diffFrom c cs

lemma cumsumFrom_length (acc : ℚ) (l : List ℚ) : (cumsumFrom acc l).length = l.length := by
  induction l generalizing acc with
  | nil => rfl
  | cons x xs ih => simp [cumsumFrom, ih]

lemma shiftFill0_length (l : List ℚ) : (shiftFill0 l).length = l.length := by
  cases l with
  | nil => rfl
  | cons x xs => simp [shiftFill0]

lemma roundedCumsum_length (nd : ℤ) (s : List (Option ℚ)) :
    (roundedCumsum nd s).length = s.length := by
  simp [roundedCumsum, cumsum, cumsumFrom_length, fillna0]

lemma zipWith_sub_cons (p : ℚ) (cs : List ℚ) :
    List.zipWith (fun a b => a - b) cs (p :: cs.dropLast) = diffFrom p cs := by
  induction cs generalizing p with
  | nil => rfl
  | cons c cs ih =>
    cases cs with
    | nil => simp [diffFrom]
    | cons d ds =>
      simpa [List.dropLast, diffFrom] using ih c

lemma zipWith_sub_shiftFill0 (cs : List ℚ) :
    List.zipWith (fun a b => a - b) cs (shiftFill0 cs) = diffFrom 0 cs := by
  cases cs with
  | nil => rfl
  | cons c cs => exact zipWith_sub_cons 0 (c :: cs)

lemma roundAt_zero (nd : ℤ) : roundAt nd 0 = 0 := by
  simp [roundAt, roundHalfEven]

lemma sumOpt_cons_some (v : ℚ) (s : List (Option ℚ)) :
    sumOpt (some v :: s) = v + sumOpt s := by
  simp [sumOpt, fillna0]

lemma sumOpt_cons_none (s : List (Option ℚ)) :
    sumOpt (none :: s) = sumOpt s := by
  simp [sumOpt, fillna0]

/-- Master telescoping lemma for apportioned rounding: the masked differences
of rounded prefix sums (starting from accumulator `acc`) sum to the rounded
grand prefix minus the rounded baseline. -/
lemma masked_diff_sum (nd : ℤ) (s : List (Option ℚ)) :
    ∀ acc : ℚ,
      sumOpt (List.zipWith (fun orig r => if orig.isSome then some r else none) s
        (diffFrom (roundAt nd acc) ((cumsumFrom acc (fillna0 s)).map (roundAt nd))))
      = roundAt nd (acc + (fillna0 s).sum) - roundAt nd acc := by
  induction s with
  | nil => intro acc; simp [sumOpt, fillna0]
  | cons a s ih =>
    intro acc
    cases a with
    | some v =>
      simp only [fillna0, List.map_cons, Option.getD_some, cumsumFrom, diffFrom,
        List.zipWith_cons_cons, Option.isSome_some, if_pos, List.sum_cons]
      rw [sumOpt_cons_some]
      have hrec := ih (acc + v)
      simp only [fillna0] at hrec
      rw [hrec]
      ring_nf
    | none =>
      simp only [fillna0, List.map_cons, Option.getD_none, cumsumFrom, diffFrom,
        List.zipWith_cons_cons, Option.isSome_none, List.sum_cons]
      rw [if_neg (by simp)]
      rw [sumOpt_cons_none]
      have hrec := ih (acc + 0)
      simp only [fillna0] at hrec
      rw [hrec]
      simp

lemma round_apportioned_length (s : List (Option ℚ)) (nd : ℤ) (h : 0 ≤ nd) :
    (round_apportioned s nd).length = s.length := by
  rw [round_apportioned, if_neg (by omega)]
  simp [List.length_zipWith, shiftFill0_length, roundedCumsum_length]

/-- Claim C1: for every finite numeric sequence (nulls allowed) and every
`ndigits ≥ 0`, the non-null entries of `round_apportioned` sum exactly to the
rounding of the total of the sequence (nulls as 0); null positions stay null; every
non-null position is the difference of consecutive rounded cumulative prefixes. -/
theorem c1_round_apportioned_sum (s : List (Option ℚ)) (nd : ℤ) (h : 0 ≤ nd) :
    sumOpt (round_apportioned s nd) = roundAt nd (sumOpt s)
    ∧ (round_apportioned s nd).length = s.length
    ∧ ∀ i (h1 : i < s.length) (h2 : i < (round_apportioned s nd).length),
        (s[i] = none → (round_apportioned s nd)[i] = none)
        ∧ (s[i] ≠ none →
            (round_apportioned s nd)[i]
              = some ((roundedCumsum nd s).getD i 0
                  - (shiftFill0 (roundedCumsum nd s)).getD i 0)) := by
  have hnot : ¬ nd < 0 := by omega
  refine ⟨?_, round_apportioned_length s nd h, ?_⟩
  · rw [round_apportioned, if_neg hnot]
    have hz := zipWith_sub_shiftFill0 (roundedCumsum nd s)
    rw [hz]
    have hm := masked_diff_sum nd s 0
    rw [roundAt_zero, zero_add] at hm
    simp only [roundedCumsum, cumsum]
    rw [hm, sub_zero]
    rfl
  · intro i h1 h2
    have hcs : i < (roundedCumsum nd s).length := by
      rw [roundedCumsum_length]; exact h1
    have hsh : i < (shiftFill0 (roundedCumsum nd s)).length := by
      rw [shiftFill0_length]; exact hcs
    have hru : round_apportioned s nd
        = List.zipWith (fun orig r => if orig.isSome then some r else none) s
            (List.zipWith (fun a b => a - b) (roundedCumsum nd s)
              (shiftFill0 (roundedCumsum nd s))) := by
      rw [round_apportioned, if_neg hnot]
    have h2' : i < (List.zipWith (fun orig r => if orig.isSome then some r else none) s
            (List.zipWith (fun a b => a - b) (roundedCumsum nd s)
              (shiftFill0 (roundedCumsum nd s)))).length := by
      rw [← hru]; exact h2
    constructor
    · intro hnone
      simp only [hru, List.getElem_zipWith, hnone]
      simp
    · intro hsome
      obtain ⟨v, hv⟩ := Option.ne_none_iff_exists.mp hsome
      simp only [hru, List.getElem_zipWith,
        List.getD_eq_getElem _ 0 hcs, List.getD_eq_getElem _ 0 hsh]
      rw [← hv]
      simp

/-- Witness for claim C1 at the concrete input `[1/3, null, 1/3, 1/3]` with
`ndigits = 0`. -/
theorem c1_round_apportioned_sum_witness :
    (0 : ℤ) ≤ 0
    ∧ sumOpt (round_apportioned [some (1/3), none, some (1/3), some (1/3)] 0)
        = roundAt 0 (sumOpt [some (1/3), none, some (1/3), some (1/3)]) :=
  ⟨by decide,
   (c1_round_apportioned_sum [some (1/3), none, some (1/3), some (1/3)] 0 (by decide)).1⟩

/-- A scalar index key: a string label or a number. Non-string keys only
support exact matching in the data mask. -/
inductive KeyVal
  | str : String → KeyVal
  | num : ℤ → KeyVal
  deriving DecidableEq

/-- A pandas index: flat (one key per position) or hierarchical (a key tuple
per position). -/
inductive PandasIndex
  | flat : List KeyVal → PandasIndex
  | multi : List (List KeyVal) → PandasIndex
  deriving DecidableEq

/-- Python `value.startswith(key)` on strings, modeled on the character list. -/
def strStartsWith (s pre : String) : Bool := pre.data.isPrefixOf s.data

/-- The inner `should_keep` of `flatbread.chaining.get_data_mask`: a value is
kept unless it equals a listed key, or (strings only) a listed string key is
its prefix. -/
def should_keep (ignore_keys : List KeyVal) (v : KeyVal) : Bool :=
  if v ∈ ignore_keys then false
  else
    match v with
    | .str s => !(ignore_keys.any (fun k =>
        match k with
        | .str ks => strStartsWith s ks
        | _ => false))
    | _ => true

/-- Embedding of `flatbread.chaining.get_data_mask`: boolean mask over the index,
`true` meaning the position holds data (is not a margin).  With no ignore
keys every position is `true`; a hierarchical tuple is kept only when all of
its levels are kept. -/
def get_data_mask (index : PandasIndex) (ignore_keys : Option (List KeyVal)) :
    List Bool :=
  match ignore_keys with
  | none =>
    match index with
    | .flat idx => idx.map (fun _ => true)
    | .multi idx => idx.map (fun _ => true)
  | some keys =>
    match index with
    | .multi idx => idx.map (fun tup => tup.all (should_keep keys))
    | .flat idx => idx.map (should_keep keys)

/-- A key value matches the ignore list: verbatim membership, or (strings
only) a listed string label is a prefix of it. -/
def kv_matches (keys : List KeyVal) (v : KeyVal) : Prop :=
  v ∈ keys ∨
    match v with
    | .str s => ∃ ks, KeyVal.str ks ∈ keys ∧ strStartsWith s ks = true
    | _ => False

/-- Boolean form of the per-level matching rule. -/
def kv_matchesB (keys : List KeyVal) (v : KeyVal) : Bool :=
  keys.contains v ||
    (match v with
     | .str s => keys.any (fun k =>
        match k with
        | .str ks => strStartsWith s ks
        | _ => false)
     | _ => false)

/-- The data mask exactly as claim C3 words it, for comparison with
`get_data_mask`: a flat entry is a margin only on verbatim equality with a
listed label, and a hierarchical tuple is a margin only when every level
matches verbatim or by string prefix. -/
def claimed_mask (index : PandasIndex) (ignore_keys : Option (List KeyVal)) :
    List Bool :=
  match ignore_keys with
  | none =>
    match index with
    | .flat idx => idx.map (fun _ => true)
    | .multi idx => idx.map (fun _ => true)
  | some keys =>
    match index with
    | .flat idx => idx.map (fun v => !(keys.contains v))
    | .multi idx => idx.map (fun tup => !(tup.all (fun v => kv_matchesB keys v)))

lemma should_keep_eq_false_iff (keys : List KeyVal) (v : KeyVal) :
    should_keep keys v = false ↔ kv_matches keys v := by
  unfold should_keep kv_matches
  by_cases hv : v ∈ keys
  · simp [hv]
  · rw [if_neg hv]
    cases v with
    | str s =>
      simp only [Bool.not_eq_false']
      rw [List.any_eq_true]
      constructor
      · rintro ⟨k, hk, hks⟩
        cases k with
        | str ks => exact Or.inr ⟨ks, hk, hks⟩
        | num n => simp at hks
      · rintro (h | ⟨ks, hks, hpre⟩)
        · exact absurd h hv
        · exact ⟨KeyVal.str ks, hks, hpre⟩
    | num n =>
      simp [hv]

/-- Claim C3 as stated is false on the code: `get_data_mask` also applies the
string-prefix rule to flat indexes (so `"SubtotalsX"` is a margin for key
`"Subtotals"`), and it marks a hierarchical tuple as margin when at least one
level matches, not when every level matches (so `("Totals", "A")` is a margin
for key `"Totals"`). -/
theorem c3_counterexample :
    get_data_mask (.flat [KeyVal.str "SubtotalsX"]) (some [KeyVal.str "Subtotals"])
        ≠ claimed_mask (.flat [KeyVal.str "SubtotalsX"]) (some [KeyVal.str "Subtotals"])
    ∧ get_data_mask (.multi [[KeyVal.str "Totals", KeyVal.str "A"]])
          (some [KeyVal.str "Totals"])
        ≠ claimed_mask (.multi [[KeyVal.str "Totals", KeyVal.str "A"]])
          (some [KeyVal.str "Totals"]) := by
  refine ⟨?_, ?_⟩ <;> decide

/-- Claim C3 (amended): the data mask marks a flat entry as margin (`false`)
exactly when its key equals a listed label or, for string keys, starts with a
listed string label; it marks a hierarchical key tuple as margin exactly when
the value at some level matches that way; with no ignore keys every
position is `true`. -/
theorem c3_data_mask_characterization :
    (∀ (keys idx : List KeyVal) (i : ℕ) (h1 : i < idx.length)
        (h2 : i < (get_data_mask (.flat idx) (some keys)).length),
        (get_data_mask (.flat idx) (some keys))[i] = false ↔ kv_matches keys idx[i])
    ∧ (∀ (keys : List KeyVal) (idx : List (List KeyVal)) (i : ℕ)
        (h1 : i < idx.length)
        (h2 : i < (get_data_mask (.multi idx) (some keys)).length),
        (get_data_mask (.multi idx) (some keys))[i] = false
          ↔ ∃ v ∈ idx[i], kv_matches keys v)
    ∧ (∀ (index : PandasIndex) (b : Bool), b ∈ get_data_mask index none → b = true) := by
  refine ⟨?_, ?_, ?_⟩
  · intro keys idx i h1 h2
    simp only [get_data_mask, List.getElem_map]
    exact should_keep_eq_false_iff keys idx[i]
  · intro keys idx i h1 h2
    simp only [get_data_mask, List.getElem_map]
    rw [← Bool.not_eq_true, List.all_eq_true]
    push_neg
    constructor
    · rintro ⟨v, hv, hkeep⟩
      exact ⟨v, hv, (should_keep_eq_false_iff keys v).mp (by simpa using hkeep)⟩
    · rintro ⟨v, hv, hmatch⟩
      exact ⟨v, hv, by simp [(should_keep_eq_false_iff keys v).mpr hmatch]⟩
  · intro index b hb
    cases index with
    | flat idx =>
      simp only [get_data_mask, List.mem_map] at hb
      obtain ⟨_, _, hb⟩ := hb
      exact hb.symm
    | multi idx =>
      simp only [get_data_mask, List.mem_map] at hb
      obtain ⟨_, _, hb⟩ := hb
      exact hb.symm

/-- Witness for the amended claim C3 at the flat index `["SubtotalsX"]` with
ignore key `"Subtotals"`. -/
theorem c3_data_mask_characterization_witness :
    ((get_data_mask (.flat [KeyVal.str "SubtotalsX"])
        (some [KeyVal.str "Subtotals"])).get ⟨0, by decide⟩ = false
      ↔ kv_matches [KeyVal.str "Subtotals"]
          (([KeyVal.str "SubtotalsX"] : List KeyVal).get ⟨0, by decide⟩)) :=
  c3_data_mask_characterization.1 [KeyVal.str "Subtotals"] [KeyVal.str "SubtotalsX"]
    0 (by decide) (by decide)

/-- Lookup in an association list with string keys: the shape of the nested
dicts stored in `DataFrame.attrs` (`d.get(k)` returning `None` when absent). -/
def dictGet {α : Type} (d : List (String × α)) (k : String) : Option α :=
  (d.find? (fun p => p.1 == k)).map (fun p => p.2)

/-- Python dict assignment `d[k] = v`: replace an existing key in place or
append a new one (insertion order preserved). -/
def dictSet {α : Type} (d : List (String × α)) (k : String) (v : α) :
    List (String × α) :=
  if (d.find? (fun p => p.1 == k)).isSome then
    d.map (fun p => if p.1 == k then (k, v) else p)
  else d ++ [(k, v)]

/-- A label dictionary mapping a category name to the labels tracked for it:
the value found at `attrs["flatbread"]["labels"]` (and the shape `drop_totals`
expects at `attrs["flatbread"]["totals"]`). -/
abbrev LabelDict := List (String × List KeyVal)

/-- The `attrs["flatbread"]` metadata dict carried on a table (an absent slot
is modeled as the empty dict, which `dict.get` treats identically). -/
abbrev FbAttrs := List (String × LabelDict)

/-- A labeled 2D table (pandas DataFrame with flat indexes): row labels,
column labels, a row-major grid of nullable rational cells, and the flatbread
margin-label metadata from `df.attrs`. -/
structure Frame where
  rowLabels : List KeyVal
  colLabels : List KeyVal
  cells : List (List (Option ℚ))
  attrs : FbAttrs
  deriving DecidableEq

/-- Boolean-mask selection of list entries (pandas boolean indexing). -/
def keepByMask {α : Type} (l : List α) (mask : List Bool) : List α :=
  (l.zip mask).filterMap (fun p => if p.2 then some p.1 else none)

/-- Embedding of `df.loc[:, mask]`: keep the columns where the mask is `true`. -/
def selectCols (f : Frame) (mask : List Bool) : Frame :=
  { f with colLabels := keepByMask f.colLabels mask,
           cells := f.cells.map (fun r => keepByMask r mask) }

/-- Embedding of `df.loc[mask]`: keep the rows where the mask is `true`. -/
def filterRows (f : Frame) (mask : List Bool) : Frame :=
  { f with rowLabels := keepByMask f.rowLabels mask,
           cells := keepByMask f.cells mask }

/-- Transpose of a rectangular row-major grid. -/
def transposeLL {α : Type} : List (List α) → List (List α)
  | [] => []
  | r :: rs =>
    match rs with
    | [] => r.map (fun x => [x])
    | _ :: _ => List.zipWith (fun x col => x :: col) r (transposeLL rs)

/-- Per-column sums `df.sum(axis=0)` (NA as 0, pandas skipna). -/
def colSums (cells : List (List (Option ℚ))) : List ℚ :=
  (transposeLL cells).map sumOpt

/-- Per-row sums `df.sum(axis=1)` (NA as 0, pandas skipna). -/
def rowSums (cells : List (List (Option ℚ))) : List ℚ :=
  cells.map sumOpt

/-- Grand sum `df.sum().sum()`: the sum of the per-column sums. -/
def grandSum (cells : List (List (Option ℚ))) : ℚ :=
  (colSums cells).sum

/-- The totals extracted by the splitter: a vector for axis 0/1 or a scalar
for axis 2 (matching the Python union type `pd.Series | int | float`). -/
inductive TotalsVal
  | vec : List (Option ℚ) → TotalsVal
  | scalar : Option ℚ → TotalsVal
  deriving DecidableEq

/-- The `ValuesAndTotals` dataclass of
`flatbread.transforms.percentages`. -/
structure ValuesAndTotals where
  values : Frame
  totals : TotalsVal
  axis : ℕ
  deriving DecidableEq

/-- Modelled from the spec: `flatbread/axes.py` (`resolve_axis`, spec §4.1) is
not included under `src/`.  Input is one of `0`, `1`, `2`, `"index"`,
`"columns"`, `"both"`; output is 0/1/2; any other value is an `InvalidAxis`
error, modeled as `none`. -/
inductive AxisArg
  | num : ℕ → AxisArg
  | index
  | columns
  | both
  deriving DecidableEq

/-- Modelled from the spec: the axis resolver of spec §4.1 (source file
missing from `src/`). -/
def resolve_axis : AxisArg → Option ℕ
  | .num 0 => some 0
  | .num 1 => some 1
  | .num 2 => some 2
  | .index => some 0
  | .columns => some 1
  | .both => some 2
  | _ => none

/-- First row whose label equals `lab` (`df.loc[lab, :]` under the no-duplicate
index invariant; `none` models the `KeyError`). -/
def locRow (f : Frame) (lab : KeyVal) : Option (List (Option ℚ)) :=
  ((f.rowLabels.zip f.cells).find? (fun p => p.1 == lab)).map (fun p => p.2)

/-- Position of the column labeled `lab` (`none` models the `KeyError`). -/
def colPos (f : Frame) (lab : KeyVal) : Option ℕ :=
  f.colLabels.findIdx? (fun c => c == lab)

/-- Embedding of `df.drop(lab, axis=0)`: remove every row labeled `lab`. -/
def dropRowsByLabel (f : Frame) (lab : KeyVal) : Frame :=
  filterRows f (f.rowLabels.map (fun k => !(k == lab)))

/-- Embedding of `df.drop(lab, axis=1)`: remove every column labeled `lab`. -/
def dropColsByLabel (f : Frame) (lab : KeyVal) : Frame :=
  selectCols f (f.colLabels.map (fun k => !(k == lab)))

/-- Embedding of `df.loc[:, lab]` as a column vector (`none` models the `KeyError`). -/
def locCol (f : Frame) (lab : KeyVal) : Option (List (Option ℚ)) :=
  (colPos f lab).map (fun j => f.cells.map (fun r => r.getD j none))

/-- Embedding of `ValuesAndTotals.from_data`: split a table into values and totals along
the resolved axis, either positionally (totals in the last row, last column or
bottom-right cell) or by label lookup.  `none` models the `InvalidAxis`,
`IndexError` and `KeyError` failures of the source. -/
def from_data (data : Frame) (axis : AxisArg) (label_totals : Option KeyVal) :
    Option ValuesAndTotals :=
  match resolve_axis axis with
  | none => none
  | some ax =>
    match label_totals with
    | none =>
      if ax = 0 then
        match data.cells.getLast? with
        | none => none
        | some lastRow =>
          some ⟨{ data with rowLabels := data.rowLabels.dropLast,
                            cells := data.cells.dropLast },
                .vec lastRow, 0⟩
      else if ax = 1 then
        if data.colLabels.isEmpty then none
        else
          some ⟨{ data with colLabels := data.colLabels.dropLast,
                            cells := data.cells.map List.dropLast },
                .vec (data.cells.map (fun r => r.getLastD none)), 1⟩
      else
        match data.cells.getLast? with
        | none => none
        | some lastRow =>
          if data.colLabels.isEmpty then none
          else
            some ⟨{ data with rowLabels := data.rowLabels.dropLast,
                              colLabels := data.colLabels.dropLast,
                              cells := (data.cells.dropLast).map List.dropLast },
                  .scalar (lastRow.getLastD none), 2⟩
    | some lab =>
      if ax = 0 then
        match locRow data lab with
        | none => none
        | some totalsRow => some ⟨dropRowsByLabel data lab, .vec totalsRow, 0⟩
      else if ax = 1 then
        match locCol data lab with
        | none => none
        | some totalsCol => some ⟨dropColsByLabel data lab, .vec totalsCol, 1⟩
      else
        match locRow data lab with
        | none => none
        | some totalsRow =>
          match colPos data lab with
          | none => none
          | some j =>
            some ⟨dropColsByLabel (dropRowsByLabel data lab) lab,
                  .scalar (totalsRow.getD j none), 2⟩

/-- Tolerance comparison of a computed sum against a (possibly null) total;
comparison against a null total is `false` (NaN comparison semantics). -/
def nearTotal (cs : ℚ) (t : Option ℚ) : Bool :=
  match t with
  | some tv => decide (|cs - tv| < 1 / 10 ^ 10)
  | none => false

/-- Embedding of `ValuesAndTotals.should_use_apportioned_rounding`: the values summed along
the complementary axis must all equal the totals within tolerance `1e-10`
(axis 0: column sums against the totals vector; axis 1: row sums; axis 2:
grand sum against the scalar).  The scalar cases for axis 0/1 mirror the
pandas scalar broadcast; a vector total with axis 2 cannot be produced by
`from_data` and is mapped to `false`. -/
def should_use_apportioned_rounding (vt : ValuesAndTotals) : Bool :=
  if vt.axis = 0 then
    match vt.totals with
    | .vec t => (List.zipWith nearTotal (colSums vt.values.cells) t).all id
    | .scalar t => (colSums vt.values.cells).all (fun cs => nearTotal cs t)
  else if vt.axis = 1 then
    match vt.totals with
    | .vec t => (List.zipWith nearTotal (rowSums vt.values.cells) t).all id
    | .scalar t => (rowSums vt.values.cells).all (fun cs => nearTotal cs t)
  else
    match vt.totals with
    | .scalar t => nearTotal (grandSum vt.values.cells) t
    | .vec _ => false

lemma all_zipWith_nearTotal (cs : List ℚ) (t : List (Option ℚ)) :
    (List.zipWith nearTotal cs t).all id = true
      ↔ ∀ i (h1 : i < cs.length) (h2 : i < t.length),
          ∃ tv, t[i] = some tv ∧ |cs[i] - tv| < 1 / 10 ^ 10 := by
  constructor
  · intro hall i h1 h2
    have hi : i < (List.zipWith nearTotal cs t).length := by
      rw [List.length_zipWith]; omega
    have hmem := List.getElem_mem hi
    have hval := List.all_eq_true.mp hall _ hmem
    rw [List.getElem_zipWith] at hval
    simp only [id_eq] at hval
    cases ht : t[i] with
    | none => rw [ht] at hval; simp [nearTotal] at hval
    | some tv =>
      rw [ht] at hval
      simp only [nearTotal, decide_eq_true_eq] at hval
      exact ⟨tv, rfl, hval⟩
  · intro h
    rw [List.all_eq_true]
    intro b hb
    obtain ⟨i, hi, rfl⟩ := List.mem_iff_getElem.mp hb
    have h1 : i < cs.length := by rw [List.length_zipWith] at hi; omega
    have h2 : i < t.length := by rw [List.length_zipWith] at hi; omega
    obtain ⟨tv, htv, hlt⟩ := h i h1 h2
    rw [List.getElem_zipWith]
    simpa [nearTotal, htv] using hlt

/-- Claim C2: for a `ValuesAndTotals`, `should_use_apportioned_rounding` is
`true` iff every comparison of the values summed along the complementary axis
against the totals is within tolerance `1e-10` (axis 0: column sums against
the totals vector; axis 1: row sums; axis 2: grand sum against the scalar);
and the test table whose column totals are doubled yields `false` for
axis 0. -/
theorem c2_should_use_apportioned_rounding_iff :
    (∀ (v : Frame) (t : List (Option ℚ)),
        should_use_apportioned_rounding ⟨v, .vec t, 0⟩ = true
          ↔ ∀ i (h1 : i < (colSums v.cells).length) (h2 : i < t.length),
              ∃ tv, t[i] = some tv ∧ |(colSums v.cells)[i] - tv| < 1 / 10 ^ 10)
    ∧ (∀ (v : Frame) (t : List (Option ℚ)),
        should_use_apportioned_rounding ⟨v, .vec t, 1⟩ = true
          ↔ ∀ i (h1 : i < (rowSums v.cells).length) (h2 : i < t.length),
              ∃ tv, t[i] = some tv ∧ |(rowSums v.cells)[i] - tv| < 1 / 10 ^ 10)
    ∧ (∀ (v : Frame) (t : Option ℚ),
        should_use_apportioned_rounding ⟨v, .scalar t, 2⟩ = true
          ↔ ∃ tv, t = some tv ∧ |grandSum v.cells - tv| < 1 / 10 ^ 10)
    ∧ Option.map should_use_apportioned_rounding
        (from_data
          ⟨[.num 0, .num 1, .num 2, .str "Totals"], [.str "A", .str "B"],
           [[some 10, some 15], [some 20, some 25], [some 30, some 20],
            [some 120, some 120]], []⟩
          (.num 0) (some (.str "Totals")))
        = some false := by
  refine ⟨?_, ?_, ?_, ?_⟩
  · intro v t
    simp only [should_use_apportioned_rounding]
    exact all_zipWith_nearTotal (colSums v.cells) t
  · intro v t
    have hd : should_use_apportioned_rounding ⟨v, .vec t, 1⟩
        = (List.zipWith nearTotal (rowSums v.cells) t).all id := rfl
    rw [hd]
    exact all_zipWith_nearTotal (rowSums v.cells) t
  · intro v t
    have hd : should_use_apportioned_rounding ⟨v, .scalar t, 2⟩
        = nearTotal (grandSum v.cells) t := rfl
    rw [hd]
    cases t with
    | none => simp [nearTotal]
    | some tv => simp [nearTotal]
  · have hsplit : from_data
        ⟨[.num 0, .num 1, .num 2, .str "Totals"], [.str "A", .str "B"],
         [[some 10, some 15], [some 20, some 25], [some 30, some 20],
          [some 120, some 120]], []⟩
        (.num 0) (some (.str "Totals"))
      = some ⟨⟨[.num 0, .num 1, .num 2], [.str "A", .str "B"],
              [[some 10, some 15], [some 20, some 25], [some 30, some 20]], []⟩,
             .vec [some 120, some 120], 0⟩ := rfl
    rw [hsplit, Option.map_some']
    have hd : should_use_apportioned_rounding
        ⟨⟨[.num 0, .num 1, .num 2], [.str "A", .str "B"],
          [[some 10, some 15], [some 20, some 25], [some 30, some 20]], []⟩,
         .vec [some 120, some 120], 0⟩
        = (List.zipWith nearTotal
            (colSums [[some 10, some 15], [some 20, some 25], [some 30, some 20]])
            [some 120, some 120]).all id := rfl
    rw [hd]
    have hc : colSums [[some 10, some 15], [some 20, some 25], [some 30, some 20]]
        = [(10 : ℚ) + (20 + (30 + 0)), 15 + (25 + (20 + 0))] := rfl
    rw [hc]
    norm_num [nearTotal]

/-- Witness for claim C2 at the test table with correct (undoubled) totals:
the axis-0 characterization instantiated at the values block and totals
vector produced by that table. -/
theorem c2_should_use_apportioned_rounding_iff_witness :
    should_use_apportioned_rounding
        ⟨⟨[.num 0, .num 1, .num 2], [.str "A", .str "B"],
          [[some 10, some 15], [some 20, some 25], [some 30, some 20]], []⟩,
         .vec [some 60, some 60], 0⟩ = true
      ↔ ∀ i (h1 : i < (colSums [[some 10, some 15], [some 20, some 25],
            [some 30, some 20]]).length)
          (h2 : i < ([some 60, some 60] : List (Option ℚ)).length),
          ∃ tv, ([some 60, some 60] : List (Option ℚ))[i] = some tv
            ∧ |(colSums [[some 10, some 15], [some 20, some 25],
                [some 30, some 20]])[i] - tv| < 1 / 10 ^ 10 :=
  c2_should_use_apportioned_rounding_iff.1
    ⟨[.num 0, .num 1, .num 2], [.str "A", .str "B"],
     [[some 10, some 15], [some 20, some 25], [some 30, some 20]], []⟩
    [some 60, some 60]

/-- Claim C4: with `label_totals = None` and a table with at least one row
and one column, the splitter takes the last row (axis 0), last column
(axis 1) or both plus the bottom-right cell (axis 2) as totals, and the
table minus that row/column/cell as values. -/
theorem c4_from_data_positional (f : Frame) (h1 : f.cells ≠ [])
    (h2 : f.colLabels ≠ []) :
    from_data f (.num 0) none
      = some ⟨{ f with rowLabels := f.rowLabels.dropLast,
                       cells := f.cells.dropLast },
              .vec (f.cells.getLast h1), 0⟩
    ∧ from_data f (.num 1) none
      = some ⟨{ f with colLabels := f.colLabels.dropLast,
                       cells := f.cells.map List.dropLast },
              .vec (f.cells.map (fun r => r.getLastD none)), 1⟩
    ∧ from_data f (.num 2) none
      = some ⟨{ f with rowLabels := f.rowLabels.dropLast,
                       colLabels := f.colLabels.dropLast,
                       cells := (f.cells.dropLast).map List.dropLast },
              .scalar ((f.cells.getLast h1).getLastD none), 2⟩ := by
  have hlast : f.cells.getLast? = some (f.cells.getLast h1) :=
    List.getLast?_eq_getLast f.cells h1
  have hemp : f.colLabels.isEmpty = false := by
    simp [List.isEmpty_iff, h2]
  refine ⟨?_, ?_, ?_⟩
  · simp [from_data, resolve_axis, hlast]
  · simp [from_data, resolve_axis, hemp]
  · simp [from_data, resolve_axis, hlast, hemp]

/-- Witness for claim C4 at a concrete 2-by-2 table. -/
theorem c4_from_data_positional_witness :
    from_data
        ⟨[.str "r0", .str "r1"], [.str "A", .str "B"],
         [[some 1, some 2], [some 3, some 4]], []⟩
        (.num 0) none
      = some ⟨⟨[.str "r0"], [.str "A", .str "B"], [[some 1, some 2]], []⟩,
              .vec [some 3, some 4], 0⟩ := by
  rw [(c4_from_data_positional
    ⟨[.str "r0", .str "r1"], [.str "A", .str "B"],
     [[some 1, some 2], [some 3, some 4]], []⟩
    (by decide) (by decide)).1]
  decide

/-- Null-propagating division of two nullable cells (pandas NaN semantics). -/
def odiv (a b : Option ℚ) : Option ℚ :=
  match a, b with
  | some x, some y => some (x / y)
  | _, _ => none

/-- The `_resolve_ignored_keys` of `flatbread.transforms.percentages`: the
explicit ignore keys extended with the labels tracked under
`attrs["flatbread"]["labels"]["percentage"]` — the singular key the source
actually reads.  The `axis` parameter is accepted and unused, as in the
source. -/
def resolve_ignored_keys_pct (f : Frame) (axis : ℕ)
    (ignore_keys : Option (List KeyVal)) : List KeyVal :=
  (ignore_keys.getD [])
    ++ ((dictGet ((dictGet f.attrs "labels").getD []) "percentage").getD [])

/-- Embedding of `data.div(vt.totals, axis=reversed)`: broadcast division of the cell grid
by the totals.  The caller has already reversed the requested axis, so for
requested axis 0 the totals vector is indexed by the columns and divides each
row elementwise, for requested axis 1 it is indexed by the rows, and the
axis 2 scalar divides every cell. -/
def divByTotals (cells : List (List (Option ℚ))) (t : TotalsVal) (ax : ℕ) :
    List (List (Option ℚ)) :=
  match t, ax with
  | .vec tv, 0 => cells.map (fun row => List.zipWith odiv row tv)
  | .vec tv, _ => List.zipWith (fun row ti => row.map (fun c => odiv c ti)) cells tv
  | .scalar s, _ => cells.map (fun row => row.map (fun c => odiv c s))

/-- Embedding of `.mul(base)` on the cell grid. -/
def mulBase (cells : List (List (Option ℚ))) (base : ℚ) :
    List (List (Option ℚ)) :=
  cells.map (fun row => row.map (fun c => c.map (fun x => x * base)))

/-- Elementwise `DataFrame.round(ndigits)` (round half to even per cell). -/
def roundCells (nd : ℤ) (cells : List (List (Option ℚ))) :
    List (List (Option ℚ)) :=
  cells.map (fun row => row.map (fun c => c.map (roundAt nd)))

/-- Embedding of `round_apportioned` applied to a DataFrame: every pandas operation in its
body (`fillna`, `cumsum`, `round`, `shift`, subtraction, `mask`) acts
column-wise, so it equals the Series algorithm applied to each column. -/
def round_apportioned_cells (nd : ℤ) (cells : List (List (Option ℚ))) :
    List (List (Option ℚ)) :=
  transposeLL ((transposeLL cells).map (fun col => round_apportioned col nd))

/-- The DataFrame implementation of `as_percentages`: resolve the axis and the
ignored keys, mask out ignored columns, split values and totals, divide by the
totals along the reversed axis, multiply by `base`, and unless `ndigits < 0`
round — apportioned when the explicit flag or the heuristic says so, otherwise
elementwise.  The `tag_labels` decorator only rewrites the output metadata,
which nothing verified here reads, and is omitted. -/
def as_percentages_df (f : Frame) (axis : AxisArg) (label_totals : Option KeyVal)
    (ignore_keys : Option (List KeyVal)) (ndigits : ℤ) (base : ℚ)
    (apportioned_rounding : Option Bool) : Option Frame :=
  match resolve_axis axis with
  | none => none
  | some ax =>
    match from_data (selectCols f (get_data_mask (.flat f.colLabels)
        (some (resolve_ignored_keys_pct f ax ignore_keys)))) (.num ax) label_totals with
    | none => none
    | some vt =>
      if ndigits < 0 then
        some { selectCols f (get_data_mask (.flat f.colLabels)
                (some (resolve_ignored_keys_pct f ax ignore_keys))) with
               cells := mulBase (divByTotals (selectCols f (get_data_mask
                 (.flat f.colLabels) (some (resolve_ignored_keys_pct f ax
                   ignore_keys)))).cells vt.totals ax) base }
      else
        if apportioned_rounding.getD (should_use_apportioned_rounding vt) then
          some { selectCols f (get_data_mask (.flat f.colLabels)
                  (some (resolve_ignored_keys_pct f ax ignore_keys))) with
                 cells := round_apportioned_cells ndigits (mulBase (divByTotals
                   (selectCols f (get_data_mask (.flat f.colLabels)
                     (some (resolve_ignored_keys_pct f ax ignore_keys)))).cells
                   vt.totals ax) base) }
        else
          some { selectCols f (get_data_mask (.flat f.colLabels)
                  (some (resolve_ignored_keys_pct f ax ignore_keys))) with
                 cells := roundCells ndigits (mulBase (divByTotals
                   (selectCols f (get_data_mask (.flat f.colLabels)
                     (some (resolve_ignored_keys_pct f ax ignore_keys)))).cells
                   vt.totals ax) base) }

/-- The Series implementation of `as_percentages`: the total is the last entry
(or the entry at `label_totals`), the series is divided by it and multiplied
by `base`; the unrounded result is returned only when `ndigits == -1`;
otherwise the apportioned flag (explicit, or the complete-proportions check
against the total) selects `round_apportioned` or the elementwise round. -/
def as_percentages_series (idx : List KeyVal) (vals : List (Option ℚ))
    (label_totals : Option KeyVal) (ndigits : ℤ) (base : ℚ)
    (apportioned_rounding : Option Bool) : Option (List (Option ℚ)) :=
  match (match label_totals with
         | none => vals.getLast?
         | some lab => ((idx.zip vals).find?
               (fun (p : KeyVal × Option ℚ) => p.1 == lab)).map
             (fun (p : KeyVal × Option ℚ) => p.2)) with
  | none => none
  | some tot =>
    if ndigits = -1 then
      some (vals.map (fun c => (odiv c tot).map (fun x => x * base)))
    else
      if (match apportioned_rounding with
          | some b => b
          | none =>
            match tot with
            | some tv =>
              decide (|sumOpt (match label_totals with
                | none => vals.dropLast
                | some lab => keepByMask vals (idx.map (fun k => !(k == lab))))
                  - tv| < 1 / 10 ^ 10)
            | none => false) then
        some (round_apportioned
          (vals.map (fun c => (odiv c tot).map (fun x => x * base))) ndigits)
      else
        some ((vals.map (fun c => (odiv c tot).map (fun x => x * base))).map
          (fun (c : Option ℚ) => c.map (roundAt ndigits)))

/-- Definition following the words of claim C8: the unrounded Series
percentages, division by the total and multiplication by `base` only. -/
def spec_unrounded_series (idx : List KeyVal) (vals : List (Option ℚ))
    (label_totals : Option KeyVal) (base : ℚ) : Option (List (Option ℚ)) :=
  Option.map
    (fun (tot : Option ℚ) =>
      vals.map (fun c => (odiv c tot).map (fun x => x * base)))
    (match label_totals with
     | none => vals.getLast?
     | some lab => ((idx.zip vals).find?
           (fun (p : KeyVal × Option ℚ) => p.1 == lab)).map
         (fun (p : KeyVal × Option ℚ) => p.2))

/-- Definition following the words of claim C8: the unrounded DataFrame
percentages, masking, splitting, division by the totals and multiplication by
`base` only — no rounding of any kind. -/
def spec_unrounded_df (f : Frame) (axis : AxisArg) (label_totals : Option KeyVal)
    (ignore_keys : Option (List KeyVal)) (base : ℚ) : Option Frame :=
  match resolve_axis axis with
  | none => none
  | some ax =>
    match from_data (selectCols f (get_data_mask (.flat f.colLabels)
        (some (resolve_ignored_keys_pct f ax ignore_keys)))) (.num ax) label_totals with
    | none => none
    | some vt =>
      some { selectCols f (get_data_mask (.flat f.colLabels)
              (some (resolve_ignored_keys_pct f ax ignore_keys))) with
             cells := mulBase (divByTotals (selectCols f (get_data_mask
               (.flat f.colLabels) (some (resolve_ignored_keys_pct f ax
                 ignore_keys)))).cells vt.totals ax) base }

/-- The `_resolve_ignored_keys` of `flatbread.transforms.totals`: explicit
keys extended with the tracked totals labels, and with the tracked
percentages/differences labels when `axis == 1`. -/
def resolve_ignored_keys_totals (f : Frame) (axis : ℕ)
    (ignore_keys : Option (List KeyVal)) : List KeyVal :=
  (ignore_keys.getD [])
    ++ ((dictGet ((dictGet f.attrs "labels").getD []) "totals").getD [])
    ++ (if axis = 1 then
          ((dictGet ((dictGet f.attrs "labels").getD []) "percentages").getD [])
            ++ ((dictGet ((dictGet f.attrs "labels").getD []) "differences").getD [])
        else [])

/-- Modelled from the spec: `flatbread/transforms/aggregation.py` (`add_agg`,
spec §4.7) is not under `src/`.  The sum aggregation for axis 0 appends one
row labeled `label` holding the per-column sums of the rows kept by the data
mask. -/
def add_agg_sum_axis0 (f : Frame) (label : KeyVal) (keys : List KeyVal) : Frame :=
  { f with rowLabels := f.rowLabels ++ [label],
           cells := f.cells
             ++ [(transposeLL (keepByMask f.cells (get_data_mask
                   (.flat f.rowLabels) (some keys)))).map (fun col => some (sumOpt col))] }

/-- Modelled from the spec: the axis 1 counterpart of the sum aggregation,
appending one column of per-row sums over the columns kept by the data
mask. -/
def add_agg_sum_axis1 (f : Frame) (label : KeyVal) (keys : List KeyVal) : Frame :=
  { f with colLabels := f.colLabels ++ [label],
           cells := f.cells.map (fun r => r
             ++ [some (sumOpt (keepByMask r (get_data_mask (.flat f.colLabels)
                   (some keys))))]) }

/-- The `tag_labels("totals")` decorator of `flatbread.chaining` applied to a
result frame: union the label actually used into
`attrs["flatbread"]["labels"]["totals"]` (per spec §4.3 the `key_labels`
entry of the missing DEFAULTS config designates the `label` parameter as
label-bearing for the totals category). -/
def tag_totals (label : KeyVal) (f : Frame) : Frame :=
  let existing := (dictGet ((dictGet f.attrs "labels").getD []) "totals").getD []
  let merged := if label ∈ existing then existing else existing ++ [label]
  { f with attrs := (dictSet f.attrs "labels"
      (dictSet ((dictGet f.attrs "labels").getD []) "totals" merged)) }

/-- Embedding of `add_totals` for a resolved axis 0 or 1: resolve the ignored keys, run the
sum aggregation, tag the result with the totals label. -/
def add_totals_axis (f : Frame) (ax : ℕ) (label : KeyVal)
    (ignore_keys : Option (List KeyVal)) : Frame :=
  if ax = 0 then
    tag_totals label (add_agg_sum_axis0 f label
      (resolve_ignored_keys_totals f 0 ignore_keys))
  else
    tag_totals label (add_agg_sum_axis1 f label
      (resolve_ignored_keys_totals f 1 ignore_keys))

/-- Embedding of `flatbread.transforms.totals.add_totals`: axis 0/1 delegate to the sum
aggregation; axis 2 applies the axis 0 pass then the axis 1 pass with the
resolved keys (each pass resolving and tagging again, as the recursive calls
in the source do through the decorators), and the outer decorator tags once
more. -/
def add_totals (f : Frame) (axis : AxisArg) (label : KeyVal)
    (ignore_keys : Option (List KeyVal)) : Option Frame :=
  match resolve_axis axis with
  | none => none
  | some ax =>
    if ax < 2 then some (add_totals_axis f ax label ignore_keys)
    else
      some (tag_totals label
        (add_totals_axis
          (add_totals_axis f 0 label
            (some (resolve_ignored_keys_totals f 2 ignore_keys)))
          1 label (some (resolve_ignored_keys_totals f 2 ignore_keys))))

/-- Embedding of `flatbread.transforms.totals.drop_totals`: with explicit ignore keys the
rows matching the data mask are kept; with none the source reads
`attrs["flatbread"]["totals"]["ignore_keys"]`, and an absent key raises
`KeyError` (modeled as `Except.error`). -/
def drop_totals (f : Frame) (ignore_keys : Option (List KeyVal)) :
    Except String Frame :=
  match ignore_keys with
  | some keys => .ok (filterRows f (get_data_mask (.flat f.rowLabels) (some keys)))
  | none =>
    match dictGet f.attrs "totals" with
    | none => .error "KeyError: totals"
    | some inner =>
      match dictGet inner "ignore_keys" with
      | none => .error "KeyError: ignore_keys"
      | some keys =>
        .ok (filterRows f (get_data_mask (.flat f.rowLabels) (some keys)))

/-- Success projection for an `Except` result (`none` when the call raised). -/
def exOk {α : Type} (e : Except String α) : Option α :=
  match e with
  | .ok a => some a
  | .error _ => none

/-- Error projection for an `Except` result (`none` when the call
succeeded). -/
def exceptErr {α : Type} (e : Except String α) : Option String :=
  match e with
  | .error s => some s
  | .ok _ => none

/-- Claim C5 is right and the code is wrong: `tag_labels` stores tracked
labels under `attrs["flatbread"]["labels"]["percentages"]` (as its docstring
and the sibling totals module show), but `_resolve_ignored_keys` in the
percentages module reads the key `"percentage"`, so tracked percentage labels
are never excluded.  On a frame whose metadata tracks `"pct"` under
`"percentages"`, the resolved ignore list is empty, the data mask keeps the
`pct` column, and `as_percentages` lets it participate (its column survives
into the output). -/
theorem c5_tracked_percentages_not_excluded :
    resolve_ignored_keys_pct
        ⟨[.str "r0"], [.str "A", .str "pct"], [[some 1, some 2]],
         [("labels", [("percentages", [.str "pct"])])]⟩ 2 none = []
    ∧ dictGet ((dictGet
        ([("labels", [("percentages", [KeyVal.str "pct"])])] : FbAttrs)
        "labels").getD []) "percentages" = some [.str "pct"]
    ∧ get_data_mask (.flat [.str "A", .str "pct"])
        (some (resolve_ignored_keys_pct
          ⟨[.str "r0"], [.str "A", .str "pct"], [[some 1, some 2]],
           [("labels", [("percentages", [.str "pct"])])]⟩ 2 none))
        = [true, true]
    ∧ (as_percentages_df
        ⟨[.str "r0"], [.str "A", .str "pct"], [[some 1, some 2]],
         [("labels", [("percentages", [.str "pct"])])]⟩
        (.num 2) none none (-1) 1 none).map Frame.colLabels
        = some [.str "A", .str "pct"] := by
  refine ⟨by decide, by decide, by decide, by decide⟩

/-- Claim C6 is right and the code is wrong: `tag_labels` writes the tracked
totals labels to `attrs["flatbread"]["labels"]["totals"]`, but `drop_totals`
with no explicit ignore keys reads `attrs["flatbread"]["totals"]["ignore_keys"]`,
a path nothing in the repository ever writes — so on a table produced by
`add_totals` it raises `KeyError` instead of filtering. -/
theorem c6_drop_totals_default_keyerror :
    (add_totals ⟨[.str "r0"], [.str "A"], [[some 1]], []⟩
        (.num 0) (.str "Totals") none).map
        (fun g => ((dictGet ((dictGet g.attrs "labels").getD []) "totals").getD [],
                   exceptErr (drop_totals g none)))
      = some ([.str "Totals"], some "KeyError: totals") := by
  decide

lemma should_keep_self (L : KeyVal) : should_keep [L] L = false := by
  simp [should_keep]

lemma keepByMask_map_true {β : Type} (labels : List KeyVal) (cells : List β)
    (p : KeyVal → Bool) (hlen : labels.length = cells.length)
    (hall : ∀ k ∈ labels, p k = true) :
    keepByMask cells (labels.map p) = cells := by
  induction labels generalizing cells with
  | nil =>
    cases cells with
    | nil => rfl
    | cons c cs => simp at hlen
  | cons k ks ih =>
    cases cells with
    | nil => simp at hlen
    | cons c cs =>
      have hk : p k = true := hall k (List.mem_cons_self k ks)
      have hrest := ih cs (by simpa using hlen)
        (fun x hx => hall x (List.mem_cons_of_mem k hx))
      simp only [keepByMask, List.map_cons, List.zip_cons_cons,
        List.filterMap_cons, hk, if_pos]
      simp only [keepByMask] at hrest
      rw [hrest]

lemma keepByMask_append_false {β : Type} (cells : List β) (m : List Bool)
    (c : β) (hlen : cells.length = m.length) :
    keepByMask (cells ++ [c]) (m ++ [false]) = keepByMask cells m := by
  unfold keepByMask
  rw [List.zip_append hlen, List.filterMap_append]
  simp

/-- Claim C7 as stated is false on the code: the round trip can remove
original data rows, because `drop_totals` matches by prefix as well — a table
with a row labeled `"TotalsX"` loses that row when dropping label
`"Totals"`. -/
theorem c7_counterexample :
    (add_totals ⟨[.str "TotalsX"], [.str "A"], [[some 1]], []⟩
        (.num 0) (.str "Totals") none).map
        (fun g => (exOk (drop_totals g (some [.str "Totals"]))).map Frame.rowLabels)
      = some (some [])
    ∧ ([] : List KeyVal) ≠ [.str "TotalsX"] := by
  refine ⟨by decide, by decide⟩

/-- Claim C7 (amended): for a table whose data row labels neither equal the
totals label nor (for strings) start with it, `drop_totals` with ignore keys
matching the label applied to `add_totals(..., axis=0, label=L)` restores the
original row labels and row cells exactly. -/
theorem c7_round_trip (f : Frame) (L : KeyVal)
    (hlen : f.rowLabels.length = f.cells.length)
    (hkeep : ∀ k ∈ f.rowLabels, should_keep [L] k = true) :
    (add_totals f (.num 0) L none).map
        (fun g => (exOk (drop_totals g (some [L]))).map
          (fun r => (r.rowLabels, r.cells)))
      = some (some (f.rowLabels, f.cells)) := by
  have hg : add_totals f (.num 0) L none
      = some (tag_totals L (add_agg_sum_axis0 f L
          (resolve_ignored_keys_totals f 0 none))) := rfl
  rw [hg, Option.map_some']
  have hmask : get_data_mask
      (.flat (tag_totals L (add_agg_sum_axis0 f L
        (resolve_ignored_keys_totals f 0 none))).rowLabels) (some [L])
      = f.rowLabels.map (should_keep [L]) ++ [false] := by
    show (f.rowLabels ++ [L]).map (should_keep [L])
        = f.rowLabels.map (should_keep [L]) ++ [false]
    rw [List.map_append]
    simp [should_keep_self]
  have hdrop : drop_totals (tag_totals L (add_agg_sum_axis0 f L
      (resolve_ignored_keys_totals f 0 none))) (some [L])
      = .ok (filterRows (tag_totals L (add_agg_sum_axis0 f L
          (resolve_ignored_keys_totals f 0 none)))
          (f.rowLabels.map (should_keep [L]) ++ [false])) := by
    show Except.ok (filterRows _ (get_data_mask _ (some [L]))) = _
    rw [hmask]
  rw [hdrop]
  show some (some ((keepByMask (f.rowLabels ++ [L])
      (f.rowLabels.map (should_keep [L]) ++ [false])),
      (keepByMask (f.cells ++ [_])
      (f.rowLabels.map (should_keep [L]) ++ [false]))))
    = some (some (f.rowLabels, f.cells))
  rw [keepByMask_append_false f.rowLabels _ L (by simp),
      keepByMask_append_false f.cells _ _ (by simp [hlen]),
      keepByMask_map_true f.rowLabels f.rowLabels (should_keep [L]) rfl hkeep,
      keepByMask_map_true f.rowLabels f.cells (should_keep [L]) hlen hkeep]

/-- Witness for the amended claim C7 at a one-row table with label
`"Totals"`. -/
theorem c7_round_trip_witness :
    (∀ k ∈ ([KeyVal.str "a"] : List KeyVal),
        should_keep [KeyVal.str "Totals"] k = true)
    ∧ (add_totals ⟨[.str "a"], [.str "A"], [[some 1]], []⟩
        (.num 0) (.str "Totals") none).map
        (fun g => (exOk (drop_totals g (some [.str "Totals"]))).map
          (fun r => (r.rowLabels, r.cells)))
      = some (some ([KeyVal.str "a"], [[some 1]])) :=
  ⟨by decide,
   c7_round_trip ⟨[.str "a"], [.str "A"], [[some 1]], []⟩ (.str "Totals")
     (by decide) (by decide)⟩

lemma roundAt_eq_low (d : ℤ) (q : ℚ) (n : ℤ)
    (h1 : (n : ℚ) ≤ q * pow10 d) (h2 : q * pow10 d < (n : ℚ) + 1/2) :
    roundAt d q = (n : ℚ) / pow10 d := by
  have hfl : ⌊q * pow10 d⌋ = n := by
    rw [Int.floor_eq_iff]
    exact ⟨h1, by push_cast; linarith⟩
  simp only [roundAt, roundHalfEven, hfl]
  rw [if_pos (by linarith)]

lemma roundAt_eq_high (d : ℤ) (q : ℚ) (n : ℤ)
    (h1 : (n : ℚ) + 1/2 < q * pow10 d) (h2 : q * pow10 d < (n : ℚ) + 1) :
    roundAt d q = ((n : ℚ) + 1) / pow10 d := by
  have hfl : ⌊q * pow10 d⌋ = n := by
    rw [Int.floor_eq_iff]
    exact ⟨by linarith, by push_cast; linarith⟩
  simp only [roundAt, roundHalfEven, hfl]
  rw [if_neg (by linarith), if_pos (by linarith)]
  push_cast
  ring_nf

lemma pow10_zero : pow10 0 = 1 := by norm_num [pow10]

lemma pow10_neg_two : pow10 (-2) = 1/100 := by
  have h2 : Int.toNat 2 = 2 := rfl
  norm_num [pow10, h2]

/-- Claim C8 as stated is false on the code: the Series variant only returns
the unrounded result when `ndigits == -1`; for `ndigits = -2` with
`apportioned_rounding=False` it rounds at the tens place, so `25%` becomes
`0`. -/
theorem c8_counterexample :
    as_percentages_series [.str "x", .str "y", .str "t"]
        [some 25, some 75, some 100] none (-2) 100 (some false)
      ≠ spec_unrounded_series [.str "x", .str "y", .str "t"]
        [some 25, some 75, some 100] none 100 := by
  have hL : as_percentages_series [.str "x", .str "y", .str "t"]
      [some 25, some 75, some 100] none (-2) 100 (some false)
      = some [some (roundAt (-2) ((25 : ℚ)/100*100)),
              some (roundAt (-2) ((75 : ℚ)/100*100)),
              some (roundAt (-2) ((100 : ℚ)/100*100))] := rfl
  have hR : spec_unrounded_series [.str "x", .str "y", .str "t"]
      [some 25, some 75, some 100] none 100
      = some [some ((25 : ℚ)/100*100), some ((75 : ℚ)/100*100),
              some ((100 : ℚ)/100*100)] := rfl
  have hv : (25 : ℚ)/100*100 = 25 := by norm_num
  have h25 : roundAt (-2) ((25 : ℚ)/100*100) = 0 := by
    rw [hv]
    have := roundAt_eq_low (-2) 25 0
      (by rw [pow10_neg_two]; norm_num) (by rw [pow10_neg_two]; norm_num)
    rw [this]
    norm_num
  intro heq
  rw [hL, hR] at heq
  simp only [Option.some.injEq, List.cons.injEq] at heq
  have hbad := heq.1
  rw [h25, hv] at hbad
  exact absurd hbad.symm (by norm_num)

/-- Claim C8 (amended): the DataFrame variant returns the unrounded division
result for every `ndigits < 0`; the Series variant does so for
`ndigits = -1` (its short-circuit tests equality with `-1`, not
negativity). -/
theorem c8_unrounded_amended :
    (∀ (f : Frame) (a : AxisArg) (lab : Option KeyVal)
        (ig : Option (List KeyVal)) (nd : ℤ) (base : ℚ) (app : Option Bool),
        nd < 0 →
        as_percentages_df f a lab ig nd base app
          = spec_unrounded_df f a lab ig base)
    ∧ (∀ (idx : List KeyVal) (vals : List (Option ℚ)) (lab : Option KeyVal)
        (base : ℚ) (app : Option Bool),
        as_percentages_series idx vals lab (-1) base app
          = spec_unrounded_series idx vals lab base) := by
  constructor
  · intro f a lab ig nd base app hnd
    unfold as_percentages_df spec_unrounded_df
    cases resolve_axis a with
    | none => rfl
    | some ax =>
      simp only []
      cases h : from_data (selectCols f (get_data_mask (.flat f.colLabels)
          (some (resolve_ignored_keys_pct f ax ig)))) (.num ax) lab with
      | none => rfl
      | some vt => simp only [if_pos hnd]
  · intro idx vals lab base app
    unfold as_percentages_series spec_unrounded_series
    cases h : (match lab with
        | none => vals.getLast?
        | some l => ((idx.zip vals).find?
              (fun (p : KeyVal × Option ℚ) => p.1 == l)).map
            (fun (p : KeyVal × Option ℚ) => p.2)) with
    | none => rfl
    | some tot => simp

/-- Witness for the amended claim C8 at a concrete two-row table and
`ndigits = -1`. -/
theorem c8_unrounded_amended_witness :
    ((-1 : ℤ) < 0)
    ∧ as_percentages_df ⟨[.str "r0", .str "r1"], [.str "A"],
          [[some 1], [some 3]], []⟩ (.num 0) none none (-1) 100 none
        = spec_unrounded_df ⟨[.str "r0", .str "r1"], [.str "A"],
          [[some 1], [some 3]], []⟩ (.num 0) none none 100 :=
  ⟨by decide,
   c8_unrounded_amended.1 ⟨[.str "r0", .str "r1"], [.str "A"],
     [[some 1], [some 3]], []⟩ (.num 0) none none (-1) 100 none (by decide)⟩

/-- Claim C9: on a column of three values `100/3` plus their total `100`,
percentages with `base=100`, `ndigits=0` and `apportioned_rounding=False`
round each entry independently (half to even), giving `33` three times, and
the three data entries sum to `99`, not `100`. -/
theorem c9_nonapportioned_sum_99 :
    (as_percentages_df
        ⟨[.num 0, .num 1, .num 2, .str "Totals"], [.str "A"],
         [[some (100/3)], [some (100/3)], [some (100/3)], [some 100]],
         [("labels", [("totals", [.str "Totals"])])]⟩
        (.num 0) none none 0 100 (some false)).map (fun o => o.cells)
      = some [[some 33], [some 33], [some 33], [some 100]]
    ∧ sumOpt [some 33, some 33, some 33] = 99
    ∧ (99 : ℚ) ≠ 100 := by
  have hpipe : as_percentages_df
      ⟨[.num 0, .num 1, .num 2, .str "Totals"], [.str "A"],
       [[some (100/3)], [some (100/3)], [some (100/3)], [some 100]],
       [("labels", [("totals", [.str "Totals"])])]⟩
      (.num 0) none none 0 100 (some false)
      = some ⟨[.num 0, .num 1, .num 2, .str "Totals"], [.str "A"],
          [[some (roundAt 0 ((100:ℚ)/3/100*100))],
           [some (roundAt 0 ((100:ℚ)/3/100*100))],
           [some (roundAt 0 ((100:ℚ)/3/100*100))],
           [some (roundAt 0 ((100:ℚ)/100*100))]],
          [("labels", [("totals", [.str "Totals"])])]⟩ := rfl
  have hv3 : (100:ℚ)/3/100*100 = 100/3 := by norm_num
  have h33 : roundAt 0 ((100:ℚ)/3/100*100) = 33 := by
    rw [hv3]
    have := roundAt_eq_low 0 (100/3) 33
      (by rw [pow10_zero]; norm_num) (by rw [pow10_zero]; norm_num)
    rw [this, pow10_zero]
    norm_num
  have h100 : roundAt 0 ((100:ℚ)/100*100) = 100 := by
    have hv : (100:ℚ)/100*100 = 100 := by norm_num
    rw [hv]
    have := roundAt_eq_low 0 100 100
      (by rw [pow10_zero]; norm_num) (by rw [pow10_zero]; norm_num)
    rw [this, pow10_zero]
    norm_num
  refine ⟨?_, by norm_num [sumOpt, fillna0], by norm_num⟩
  rw [hpipe, Option.map_some', h33, h100]

lemma keepByMask_sub {α : Type} (l : List α) (m : List Bool) :
    ∀ x ∈ keepByMask l m, x ∈ l := by
  intro x hx
  unfold keepByMask at hx
  obtain ⟨⟨a, b⟩, hab, hfa⟩ := List.mem_filterMap.mp hx
  cases b with
  | false => simp at hfa
  | true =>
    simp only [if_pos] at hfa
    cases hfa
    exact (List.of_mem_zip hab).1

lemma zipWith_odiv_self_mul (l : List (Option ℚ)) (base : ℚ)
    (h : ∀ c ∈ l, ∃ t : ℚ, c = some t ∧ t ≠ 0) :
    (List.zipWith odiv l l).map (fun c => c.map (fun x => x * base))
      = l.map (fun _ => some base) := by
  induction l with
  | nil => rfl
  | cons c cs ih =>
    obtain ⟨t, rfl, ht⟩ := h c (List.mem_cons_self c cs)
    simp only [List.zipWith_cons_cons, odiv, List.map_cons, Option.map_some']
    rw [div_self ht, one_mul]
    congr 1
    exact ih (fun x hx => h x (List.mem_cons_of_mem _ hx))

/-- Claim C10: with `axis=0`, `label_totals=None` and `ndigits=-1` on a table
whose last row holds its (all nonzero) column totals, `as_percentages` keeps
every row of the (column-masked) input — the totals row is not removed — and
each surviving entry of the last output row equals `base`, because the totals
row is divided by itself. -/
theorem c10_totals_row_all_base (f : Frame) (base : ℚ) (h1 : f.cells ≠ [])
    (hnz : ∀ c ∈ f.cells.getLast h1, ∃ t : ℚ, c = some t ∧ t ≠ 0) :
    ∃ out, as_percentages_df f (.num 0) none none (-1) base none = some out
      ∧ out.rowLabels = f.rowLabels
      ∧ out.cells.length = f.cells.length
      ∧ ∃ lr, out.cells.getLast? = some lr ∧ ∀ c ∈ lr, c = some base := by
  have hlast : (selectCols f (get_data_mask (.flat f.colLabels)
        (some (resolve_ignored_keys_pct f 0 none)))).cells.getLast?
      = some (keepByMask (f.cells.getLast h1)
          (get_data_mask (.flat f.colLabels)
            (some (resolve_ignored_keys_pct f 0 none)))) := by
    show (f.cells.map (fun r => keepByMask r (get_data_mask (.flat f.colLabels)
        (some (resolve_ignored_keys_pct f 0 none))))).getLast? = _
    rw [List.getLast?_map, List.getLast?_eq_getLast f.cells h1, Option.map_some']
  have hstep : from_data (selectCols f (get_data_mask (.flat f.colLabels)
        (some (resolve_ignored_keys_pct f 0 none)))) (.num 0) none
      = match (selectCols f (get_data_mask (.flat f.colLabels)
          (some (resolve_ignored_keys_pct f 0 none)))).cells.getLast? with
        | none => none
        | some lastRow =>
          some ⟨{ selectCols f (get_data_mask (.flat f.colLabels)
                    (some (resolve_ignored_keys_pct f 0 none))) with
                  rowLabels := (selectCols f (get_data_mask (.flat f.colLabels)
                    (some (resolve_ignored_keys_pct f 0 none)))).rowLabels.dropLast,
                  cells := (selectCols f (get_data_mask (.flat f.colLabels)
                    (some (resolve_ignored_keys_pct f 0 none)))).cells.dropLast },
                .vec lastRow, 0⟩ := rfl
  have hfd : from_data (selectCols f (get_data_mask (.flat f.colLabels)
        (some (resolve_ignored_keys_pct f 0 none)))) (.num 0) none
      = some ⟨{ selectCols f (get_data_mask (.flat f.colLabels)
                  (some (resolve_ignored_keys_pct f 0 none))) with
                rowLabels := (selectCols f (get_data_mask (.flat f.colLabels)
                  (some (resolve_ignored_keys_pct f 0 none)))).rowLabels.dropLast,
                cells := (selectCols f (get_data_mask (.flat f.colLabels)
                  (some (resolve_ignored_keys_pct f 0 none)))).cells.dropLast },
              .vec (keepByMask (f.cells.getLast h1)
                (get_data_mask (.flat f.colLabels)
                  (some (resolve_ignored_keys_pct f 0 none)))), 0⟩ := by
    rw [hstep, hlast]
  have hred : as_percentages_df f (.num 0) none none (-1) base none
      = match from_data (selectCols f (get_data_mask (.flat f.colLabels)
            (some (resolve_ignored_keys_pct f 0 none)))) (.num 0) none with
        | none => none
        | some vt =>
          some { selectCols f (get_data_mask (.flat f.colLabels)
                   (some (resolve_ignored_keys_pct f 0 none))) with
                 cells := mulBase (divByTotals (selectCols f (get_data_mask
                   (.flat f.colLabels) (some (resolve_ignored_keys_pct f 0
                     none)))).cells vt.totals 0) base } := rfl
  refine ⟨{ selectCols f (get_data_mask (.flat f.colLabels)
              (some (resolve_ignored_keys_pct f 0 none))) with
            cells := mulBase (divByTotals (selectCols f (get_data_mask
              (.flat f.colLabels) (some (resolve_ignored_keys_pct f 0
                none)))).cells
              (TotalsVal.vec (keepByMask (f.cells.getLast h1)
                (get_data_mask (.flat f.colLabels)
                  (some (resolve_ignored_keys_pct f 0 none))))) 0) base },
          ?_, ?_, ?_, ?_⟩
  · rw [hred, hfd]
  · rfl
  · simp [mulBase, divByTotals, selectCols]
  · refine ⟨(List.zipWith odiv
        (keepByMask (f.cells.getLast h1) (get_data_mask (.flat f.colLabels)
          (some (resolve_ignored_keys_pct f 0 none))))
        (keepByMask (f.cells.getLast h1) (get_data_mask (.flat f.colLabels)
          (some (resolve_ignored_keys_pct f 0 none))))).map
        (fun c => c.map (fun x => x * base)), ?_, ?_⟩
    · show (mulBase (divByTotals (selectCols f (get_data_mask (.flat f.colLabels)
          (some (resolve_ignored_keys_pct f 0 none)))).cells
          (TotalsVal.vec (keepByMask (f.cells.getLast h1)
            (get_data_mask (.flat f.colLabels)
              (some (resolve_ignored_keys_pct f 0 none))))) 0) base).getLast?
        = _
      unfold mulBase divByTotals
      rw [List.getLast?_map, List.getLast?_map]
      show (((f.cells.map (fun r => keepByMask r (get_data_mask (.flat f.colLabels)
          (some (resolve_ignored_keys_pct f 0 none))))).getLast?).map _ ).map _ = _
      rw [List.getLast?_map, List.getLast?_eq_getLast f.cells h1]
      rfl
    · have hsub := keepByMask_sub (f.cells.getLast h1)
        (get_data_mask (.flat f.colLabels)
          (some (resolve_ignored_keys_pct f 0 none)))
      rw [zipWith_odiv_self_mul _ base (fun c hc => hnz c (hsub c hc))]
      intro c hc
      obtain ⟨a, _, rfl⟩ := List.mem_map.mp hc
      rfl

/-- Witness for claim C10 at a two-row, one-column table whose totals row is
`[4]`, with `base = 100`. -/
theorem c10_totals_row_all_base_witness :
    ∃ out, as_percentages_df ⟨[.str "r0", .str "Totals"], [.str "A"],
          [[some 1], [some 4]], []⟩ (.num 0) none none (-1) 100 none = some out
      ∧ out.rowLabels = [KeyVal.str "r0", KeyVal.str "Totals"]
      ∧ out.cells.length
          = ([[some 1], [some 4]] : List (List (Option ℚ))).length
      ∧ ∃ lr, out.cells.getLast? = some lr ∧ ∀ c ∈ lr, c = some 100 :=
  c10_totals_row_all_base
    ⟨[.str "r0", .str "Totals"], [.str "A"], [[some 1], [some 4]], []⟩ 100
    (by decide)
    (by
      intro c hc
      have hc' : c ∈ [some (4 : ℚ)] := hc
      have : c = some 4 := by simpa using hc'
      exact ⟨4, this, by norm_num⟩)

end Flatbread
